import Mathlib

/-!
# Verification of the Keepa data-access core (`src/tools.ts`)

Shallow embedding of the data model and operations of the `KeepaTools` class
(`src/tools.ts`) of the keepa-mcp-custom repository, together with theorems
settling the frozen specification claims.

Modelling conventions:
* TypeScript numbers that hold integer data (Keepa minutes, unix milliseconds,
  prices in cents, counts) are modelled as `Int`; genuinely fractional
  computations (percentage change, unit-sales velocity) are modelled as `ℚ`.
* JavaScript `Date` calendar fields (`getFullYear`, `getMonth`) are modelled by
  the proleptic-Gregorian civil-date computation `civilFromMs` (UTC, matching
  the container's clock; ECMA-262 specifies exactly this calendar).
* JavaScript strings are modelled as lists of UTF-16 code units (`List Nat`);
  the default `Array.prototype.sort` comparison is `lexLtCodes`.
* `null`/`undefined`-able values are `Option`; a rejected promise is the
  `Except.error` case of a computation.
-/

/-! ## Time: Keepa minutes and the civil calendar -/

/-- The timestamp conversion of `formatKeepaDate` (`src/tools.ts:894`):
`const unixMs = (keepaTime + 21564000) * 60000`. -/
def keepaMinutesToUnixMs (keepaTime : Int) : Int :=
  (keepaTime + 21564000) * 60000

/-- Unix milliseconds of the code's fixed epoch: `keepaMinutesToUnixMs 0`. -/
def codeEpochMs : Int := 21564000 * 60000

/-- Unix milliseconds of 21 Jan 2011, 00:00 UTC — the epoch the spec names. -/
def specClaimEpochMs : Int := 1295568000000

/-- Civil (proleptic Gregorian) date from a count of days since 1970-01-01,
as a `(year, month, day)` triple with `month ∈ [1,12]`.  This is the standard
`civil_from_days` computation and agrees with ECMA-262 `Date` fields in UTC. -/
def civilFromDays (z0 : Int) : Int × Int × Int :=
  let z := z0 + 719468
  let era := z.fdiv 146097
  let doe := z - era * 146097
  let yoe := (doe - doe.fdiv 1460 + doe.fdiv 36524 - doe.fdiv 146096).fdiv 365
  let y := yoe + era * 400
  let doy := doe - (365 * yoe + yoe.fdiv 4 - yoe.fdiv 100)
  let mp := (5 * doy + 2).fdiv 153
  let d := doy - (153 * mp + 2).fdiv 5 + 1
  let m := mp + (if mp < 10 then 3 else -9)
  (if m ≤ 2 then y + 1 else y, m, d)

/-- Civil date of a unix-millisecond instant (UTC). -/
def civilFromMs (ms : Int) : Int × Int × Int :=
  civilFromDays (ms.fdiv 86400000)

/-- The calendar date `formatKeepaDate` (`src/tools.ts:893-898`) renders: the
civil date of the instant `(keepaTime + 21564000) * 60000`.  (The source then
formats it with `toLocaleDateString`; we model the date being rendered.) -/
def formatKeepaDateCivil (keepaTime : Int) : Int × Int × Int :=
  civilFromMs (keepaMinutesToUnixMs keepaTime)

/-! ## Time-series samples and the decoder -/

/-- A decoded time-series point: unix-millisecond timestamp and value
(`{ timestamp, value }` as produced by `parseCSVData`). -/
structure Sample where
  timestamp : Int
  value : Int
deriving DecidableEq, Repr

/-- Modelled from the spec: `KeepaClient.parseCSVData` lives in
`src/keepa-client.ts`, which is not part of the repository snapshot (only its
callers in `src/tools.ts` are).  Spec §4.4: a raw series is an alternating flat
sequence `time, value, time, value, …` of provider minutes and values, and the
timestamp conversion is `epochMillis + minutes * 60000`; the conversion used is
the one the repository itself exhibits in `formatKeepaDate` (`src/tools.ts:894`).
Sentinel filtering is performed by the caller (`src/tools.ts:779-781`), so the
decode itself is a pure conversion of the pairs. -/
def parseCSVData : List Int → List Sample
  | t :: v :: rest => ⟨keepaMinutesToUnixMs t, v⟩ :: parseCSVData rest
  | _ => []

/-- The price-series filtering of `getPriceHistory` (`src/tools.ts:779-780`):
`rawData.filter(d => d.value > 0)`. -/
def priceHistorySeries (raw : List Int) : List Sample :=
  (parseCSVData raw).filter (fun d => 0 < d.value)

/-- The rank-series filtering of `getPriceHistory` (`src/tools.ts:781`):
`rawData.filter(d => d.value >= 0)`. -/
def rankHistorySeries (raw : List Int) : List Sample :=
  (parseCSVData raw).filter (fun d => 0 ≤ d.value)

/-! ## Interval-extrema statistics fields -/

/-- The raw shape of a `minInInterval`/`maxInInterval` entry as the provider
may return it: absent (`null`/`undefined`), a bare number, or an array. -/
inductive RawStatField where
  | null
  | num (n : Int)
  | arr (xs : List Int)
deriving DecidableEq, Repr

/-- The extremum-value extraction of `lookupProduct` and `getPriceHistory`
(`src/tools.ts:205,207,793-794`):
`Array.isArray(raw) ? raw[1] : raw` (an out-of-range index is `undefined`,
i.e. `none`). -/
def extremumValue : RawStatField → Option Int
  | .arr xs => xs.get? 1
  | .num n => some n
  | .null => none

/-- The extremum-timestamp extraction of `getPriceHistory`
(`src/tools.ts:795-796`): `Array.isArray(raw) ? raw[0] : null`. -/
def extremumTime : RawStatField → Option Int
  | .arr xs => xs.get? 0
  | .num _ => none
  | .null => none

/-- What `lookupProduct` reports as the 90-day minimum price
(`src/tools.ts:204-205` and the `minPrice && minPrice > 0` guard at
`src/tools.ts:240-242`). -/
def lookupMinShown (f : RawStatField) : Option Int :=
  match extremumValue f with
  | some v => if 0 < v then some v else none
  | none => none

/-! ## Tool-method error handling (claims C8, C9) -/

/-- A JavaScript value caught by a `catch (error)` clause: an `Error` object,
a thrown string, or any other value (carrying its `String(...)` rendering and
its `JSON.stringify(...)` rendering). -/
inductive JsThrown where
  | errObj (message : String)
  | strVal (s : String)
  | objVal (asString : String) (asJson : String)
deriving DecidableEq, Repr

/-- Handler expression `error instanceof Error ? error.message : String(error)`
(`src/tools.ts:494,887`). -/
def msgOrString : JsThrown → String
  | .errObj m => m
  | .strVal s => s
  | .objVal s _ => s

/-- Handler expression `error instanceof Error ? error.message : 'Unknown error'`
(`src/tools.ts:540,605,658,701,1430,1620,1879`). -/
def msgOrUnknown : JsThrown → String
  | .errObj m => m
  | .strVal _ => "Unknown error"
  | .objVal _ _ => "Unknown error"

/-- Handler expression of `findProducts`/`analyzeCategory`
(`src/tools.ts:1088-1090,1126-1128`): `error.message`, a thrown string itself,
or `JSON.stringify(error)`. -/
def finderMessage : JsThrown → String
  | .errObj m => m
  | .strVal s => s
  | .objVal _ j => j

/-- The `try { body } catch (error) { return prefix + render(error) }` shape
every public `KeepaTools` method has: the entire body runs inside the `try`, so
the method's promise resolves to the body's string, or to the rendered error
text — it never rejects. -/
def runTool (pre : String) (render : JsThrown → String)
    (body : Except JsThrown String) : String :=
  match body with
  | .ok s => s
  | .error e => pre ++ render e

/-- `lookupProduct` catch clause, `src/tools.ts:493-495`. -/
def lookupProductSettled (body : Except JsThrown String) : String :=
  runTool "Error looking up product: " msgOrString body

/-- `batchLookupProducts` catch clause, `src/tools.ts:539-541`. -/
def batchLookupProductsSettled (body : Except JsThrown String) : String :=
  runTool "Error in batch lookup: " msgOrUnknown body

/-- `searchDeals` catch clause, `src/tools.ts:604-606`. -/
def searchDealsSettled (body : Except JsThrown String) : String :=
  runTool "Error searching deals: " msgOrUnknown body

/-- `lookupSeller` catch clause, `src/tools.ts:657-659`. -/
def lookupSellerSettled (body : Except JsThrown String) : String :=
  runTool "Error looking up seller: " msgOrUnknown body

/-- `getBestSellers` catch clause, `src/tools.ts:700-702`. -/
def getBestSellersSettled (body : Except JsThrown String) : String :=
  runTool "Error getting best sellers: " msgOrUnknown body

/-- `getPriceHistory` catch clause, `src/tools.ts:886-888`. -/
def getPriceHistorySettled (body : Except JsThrown String) : String :=
  runTool "Error obteniendo historial: " msgOrString body

/-- `findProducts` catch clause, `src/tools.ts:1086-1092`. -/
def findProductsSettled (body : Except JsThrown String) : String :=
  runTool "Error in product finder: " finderMessage body

/-- `analyzeCategory` catch clause, `src/tools.ts:1124-1130`. -/
def analyzeCategorySettled (body : Except JsThrown String) : String :=
  runTool "Error analyzing category: " finderMessage body

/-- `analyzeSalesVelocity` catch clause, `src/tools.ts:1429-1431`. -/
def analyzeSalesVelocitySettled (body : Except JsThrown String) : String :=
  runTool "Error analyzing sales velocity: " msgOrUnknown body

/-- `analyzeInventory` catch clause, `src/tools.ts:1619-1621`. -/
def analyzeInventorySettled (body : Except JsThrown String) : String :=
  runTool "Error analyzing inventory: " msgOrUnknown body

/-- `getTokenStatus` catch clause, `src/tools.ts:1878-1880`. -/
def getTokenStatusSettled (body : Except JsThrown String) : String :=
  runTool "Error checking token status: " msgOrUnknown body

/-! ## `lookupProduct` input validation (claim C9) -/

/-- JavaScript string truthiness: `undefined` and the empty string are falsy. -/
def jsTruthyStr : Option String → Bool
  | none => false
  | some s => !(s == "")

/-- The inputs of `lookupProduct` relevant to its validation guard. -/
structure LookupProductParams where
  asin : Option String
  code : Option String
deriving DecidableEq, Repr

/-- The control flow of `lookupProduct` around its guard (`src/tools.ts:135-137`):
if neither `asin` nor `code` is truthy it returns the validation error string at
once; otherwise the body issues exactly one client call (`getProduct` or
`getProductByAsin`, `src/tools.ts:152-166`) whose eventual rendering is
abstracted as `bodyResult`.  The second component counts provider calls. -/
def lookupProductRun (p : LookupProductParams) (bodyResult : String) :
    String × Nat :=
  if !jsTruthyStr p.asin && !jsTruthyStr p.code then
    ("Error: Either ASIN or code (EAN/UPC) is required", 0)
  else
    (bodyResult, 1)

/-! ## Price-history trend (claim C6) -/

/-- The trend reported by `getPriceHistory` for one series. -/
inductive PriceTrend where
  | stable
  | up (pct : ℚ)
  | down (pct : ℚ)
deriving DecidableEq, Repr

/-- `const change = ((last - first) / first) * 100` (`src/tools.ts:831`). -/
def changePct (first last : ℚ) : ℚ :=
  (last - first) / first * 100

/-- The trend classification of `src/tools.ts:832-834`: `change > 3` is a rise,
`change < -3` a fall, anything else (including exactly ±3) stays `Estable`. -/
def trendOf (first last : ℚ) : PriceTrend :=
  if 3 < changePct first last then .up (changePct first last)
  else if changePct first last < -3 then .down (changePct first last)
  else .stable

/-- The trend block of `getPriceHistory` (`src/tools.ts:827-837`): a trend line
is emitted only when the filtered series has at least two samples and both the
first and the last value are positive. -/
def seriesTrend (data : List Sample) : Option PriceTrend :=
  if 2 ≤ data.length then
    match data.head?, data.getLast? with
    | some f, some l =>
      if 0 < f.value ∧ 0 < l.value then
        some (trendOf (f.value : ℚ) (l.value : ℚ))
      else none
    | _, _ => none
  else none

/-! ## Batch product lookup (claim C7) -/

/-- A product entry of the provider's batch response, keyed by its ASIN (the
remaining fields of the response are irrelevant to ordering). -/
structure BatchProduct where
  asin : String
deriving DecidableEq, Repr

/-- Modelled from the spec: `KeepaClient.getProductsBatch` lives in
`src/keepa-client.ts`, which is not part of the repository snapshot.  Spec
§4.3: the batch requester splits the identifier list into provider-legal
chunks, issues them, and "merges results back into a single ordered list keyed
by identifier", preserving original order, with identifiers the provider did
not return simply absent from the merged list.  The provider's response is
abstracted as a partial map from identifier to product entry. -/
def getProductsBatch (asins : List String)
    (provider : String → Option BatchProduct) : List BatchProduct :=
  asins.filterMap provider

/-- The not-found computation of `batchLookupProducts` (`src/tools.ts:530-532`):
`params.asins.filter(asin => !products.some(product => product.asin === asin))`. -/
def batchNotFound (asins : List String) (products : List BatchProduct) :
    List String :=
  asins.filter (fun a => !(products.any (fun p => p.asin == a)))

/-- The observable outcome of `batchLookupProducts` (`src/tools.ts:497-538`):
the found products are rendered in the order of the merged list, and the
missing identifiers are reported in a separate Not Found section. -/
structure BatchLookupOutcome where
  foundAsins : List String
  notFound : List String
deriving DecidableEq, Repr

/-- `batchLookupProducts` renders the client's merged list in order
(`src/tools.ts:514-528`) and appends the not-found set (`src/tools.ts:530-536`). -/
def batchLookupProductsOutcome (asins : List String)
    (provider : String → Option BatchProduct) : BatchLookupOutcome :=
  let products := getProductsBatch asins provider
  { foundAsins := products.map (fun p => p.asin)
    notFound := batchNotFound asins products }

/-! ## Unit-sales velocity (claim C4) -/

/-- JavaScript `a || b` on an optional number: `undefined` and `0` are falsy. -/
def numOr (a : Option Int) (b : Int) : Int :=
  match a with
  | some n => if n ≠ 0 then n else b
  | none => b

/-- `Math.round` on a non-negative rational: round half up. -/
def jsRound (q : ℚ) : Int := ⌊q + 1/2⌋

/-- `Math.round(x * 10) / 10` — rounding to one decimal place. -/
def round1 (q : ℚ) : ℚ := (jsRound (q * 10) : ℚ) / 10

/-- The fields of one product that `getRealSalesVelocityData` reads when
computing its velocity figures (`src/tools.ts:1474-1479`): the provider's
authoritative `monthlySold` (either top-level or under `stats`), and the
rank/price context fields that per the claim must not influence velocity. -/
structure VelocityProduct where
  monthlySold : Option Int
  statsMonthlySold : Option Int
  price : Int
  salesRank : Int
deriving DecidableEq, Repr

/-- The trend tag of `SalesVelocityData.salesVelocity`. -/
inductive VTrend where
  | accelerating
  | stable
  | declining
deriving DecidableEq, Repr

/-- The `salesVelocity` sub-record of `SalesVelocityData`
(`src/tools.ts:1511-1518`). -/
structure SalesVelocityFields where
  daily : ℚ
  weekly : ℚ
  monthly : Int
  trend : VTrend
  changePercent : Int
deriving DecidableEq, Repr

/-- The `salesVelocity` computation of `getRealSalesVelocityData`
(`src/tools.ts:1475-1517`): `monthlySold = product.monthlySold ||
product.stats?.monthlySold || 0`, `dailyVelocity = monthlySold / 30`, trend
from the daily velocity alone, and the rounded daily/weekly figures.  Note the
velocity record is produced for every product — there is no omission path. -/
def velocityFieldsOf (p : VelocityProduct) : SalesVelocityFields :=
  let monthlySold : Int := numOr p.monthlySold (numOr p.statsMonthlySold 0)
  let dailyVelocity : ℚ := (monthlySold : ℚ) / 30
  let trend : VTrend :=
    if 50 < dailyVelocity then .accelerating
    else if dailyVelocity < 5 then .declining
    else .stable
  { daily := round1 dailyVelocity
    weekly := round1 (dailyVelocity * 7)
    monthly := monthlySold
    trend := trend
    changePercent :=
      match trend with
      | .accelerating => jsRound (dailyVelocity / 10 * 5)
      | .declining => -(jsRound (dailyVelocity / 10 * 3))
      | .stable => 0 }

/-- The velocity block of `lookupProduct` (`src/tools.ts:366-375`): rendered
only when `monthlySold` is truthy and positive, as
`(monthlySold, daily, weekly)` with `daily = Math.round((m/30)*10)/10` and
`weekly = Math.round((m/4.3)*10)/10`; otherwise the block is omitted. -/
def lookupVelocityBlock (monthlySold : Option Int) : Option (Int × ℚ × ℚ) :=
  match monthlySold with
  | some m =>
    if m ≠ 0 ∧ 0 < m then
      some (m, round1 ((m : ℚ) / 30), round1 ((m : ℚ) / (43/10)))
    else none
  | none => none

/-- A concrete product for which the provider supplies no units-sold figure
but a sales rank of 5000. -/
def noMonthlySoldProduct : VelocityProduct :=
  { monthlySold := none, statsMonthlySold := none, price := 1999,
    salesRank := 5000 }

/-! ## Monthly aggregation (claims C5, C10)

`aggregateMonthly` (`src/tools.ts:907-953`) groups samples into a plain object
keyed by the string `${getFullYear()}-${String(getMonth()+1).padStart(2,'0')}`,
sorts `Object.entries(months).sort()` — JavaScript's default sort, which
compares the stringified entries by UTF-16 code units — and renders one line
per bucket from the positive values' min, max and rounded average.  Strings
are modelled as code-unit lists (`List Nat`); the default sort is modelled as
a stable insertion sort by the code-unit comparison, which is observably the
sort JavaScript performs (stable, ascending by the comparator). -/

/-- Decimal digit code units of `n`, most significant first, via a fuel
counter so the recursion is structural (`fuel > n` suffices). -/
def digitsFuel : Nat → Nat → List Nat
  | 0, _ => []
  | fuel+1, n =>
    if n < 10 then [48 + n] else digitsFuel fuel (n / 10) ++ [48 + n % 10]

/-- Code units of the decimal representation of a natural number, as
JavaScript `String(n)` produces it. -/
def natCodes (n : Nat) : List Nat := digitsFuel (n + 1) n

/-- Code units of JavaScript `String(i)` for an integer. -/
def intCodes (i : Int) : List Nat :=
  if i < 0 then 45 :: natCodes i.natAbs else natCodes i.toNat

/-- `String(m).padStart(2, '0')` — the month part of the bucket key
(`src/tools.ts:916`). -/
def pad2Codes (i : Int) : List Nat :=
  let s := intCodes i
  if s.length < 2 then 48 :: s else s

/-- JavaScript string comparison: lexicographic on UTF-16 code units, a
proper prefix comparing smaller. -/
def lexLtCodes : List Nat → List Nat → Bool
  | _, [] => false
  | [], _ :: _ => true
  | a :: as, b :: bs =>
    if a < b then true else if b < a then false else lexLtCodes as bs

/-- `Array.prototype.join(',')` on stringified elements. -/
def joinCommaCodes : List (List Nat) → List Nat
  | [] => []
  | [x] => x
  | x :: y :: rest => x ++ 44 :: joinCommaCodes (y :: rest)

/-- The `(getFullYear(), getMonth() + 1)` pair of a sample's timestamp
(`src/tools.ts:915-916`), in UTC. -/
def monthOf (s : Sample) : Int × Int :=
  ((civilFromMs s.timestamp).1, (civilFromMs s.timestamp).2.1)

/-- Code units of the bucket key `${year}-${month padded}`
(`src/tools.ts:916`); 45 is the hyphen. -/
def keyCodes (k : Int × Int) : List Nat :=
  intCodes k.1 ++ 45 :: pad2Codes k.2

/-- Code units of `String(entry)` for an entry `[key, values]` of
`Object.entries`: the key, a comma (44), and the values joined by commas —
what the default `sort()` actually compares. -/
def entryCodes (e : (Int × Int) × List Int) : List Nat :=
  keyCodes e.1 ++ 44 :: joinCommaCodes (e.2.map intCodes)

/-- The default-sort comparison on entries: `a` precedes `b` unless
`String(b) < String(a)`. -/
def entryLe (a b : (Int × Int) × List Int) : Bool :=
  !(lexLtCodes (entryCodes b) (entryCodes a))

/-- Insert `x` after every element that compares `le` to it — one step of a
stable insertion sort. -/
def insertSorted {α : Type} (le : α → α → Bool) (x : α) : List α → List α
  | [] => [x]
  | y :: ys => if le y x then y :: insertSorted le x ys else x :: y :: ys

/-- Stable ascending sort by `le`; for a total, transitive `le` this is the
unique stable sort, hence the result of JavaScript `Array.prototype.sort`. -/
def stableSort {α : Type} (le : α → α → Bool) (l : List α) : List α :=
  l.foldl (fun acc x => insertSorted le x acc) []

/-- Append `v` to the group keyed `k`, creating the group at the end on first
occurrence — the object-insertion semantics of `months[key].push(...)`
(`src/tools.ts:917-918`; string keys keep insertion order). -/
def insertValue (k : Int × Int) (v : Int) :
    List ((Int × Int) × List Int) → List ((Int × Int) × List Int)
  | [] => [(k, [v])]
  | (k', vs) :: rest =>
    if k' = k then (k', vs ++ [v]) :: rest else (k', vs) :: insertValue k v rest

/-- The grouping loop of `aggregateMonthly` (`src/tools.ts:912-919`). -/
def groupMonths (data : List Sample) : List ((Int × Int) × List Int) :=
  data.foldl (fun g s => insertValue (monthOf s) s.value g) []

/-- The figures one rendered bucket line carries (`src/tools.ts:928-949`):
`noData` for a bucket with no positive values; a collapsed single figure when
min = max; otherwise a price line carries min, max and the average while a
rank line carries only min and max — each with the count of changes. -/
inductive Bucket where
  | noData (year month : Int)
  | priceSingle (year month avg count : Int)
  | priceRange (year month mn mx avg count : Int)
  | rankSingle (year month avg count : Int)
  | rankRange (year month mn mx count : Int)
deriving DecidableEq, Repr

/-- The per-bucket rendering of `aggregateMonthly` (`src/tools.ts:922-949`):
filter to positive values, take `Math.min`/`Math.max`/`Math.round(sum/len)`,
collapse `min === max`, and for rank series render the range without the
average. -/
def renderBucket (isPrice : Bool) (e : (Int × Int) × List Int) : Bucket :=
  match e.2.filter (fun v => 0 < v) with
  | [] => .noData e.1.1 e.1.2
  | v :: vs =>
    let mn := vs.foldl min v
    let mx := vs.foldl max v
    let count : Int := (v :: vs).length
    let sum := (v :: vs).foldl (· + ·) (0 : Int)
    let avg := (2 * sum + count).fdiv (2 * count)
    if isPrice then
      if mn = mx then .priceSingle e.1.1 e.1.2 avg count
      else .priceRange e.1.1 e.1.2 mn mx avg count
    else
      if mn = mx then .rankSingle e.1.1 e.1.2 avg count
      else .rankRange e.1.1 e.1.2 mn mx count

/-- `aggregateMonthly` (`src/tools.ts:907-953`): group by calendar month,
sort the entries by their stringified form, render one bucket per line. -/
def aggregateMonthly (isPrice : Bool) (data : List Sample) : List Bucket :=
  (stableSort entryLe (groupMonths data)).map (renderBucket isPrice)

/-- The `(year, month)` a rendered bucket line is labelled with. -/
def bucketMonth : Bucket → Int × Int
  | .noData y m => (y, m)
  | .priceSingle y m _ _ => (y, m)
  | .priceRange y m _ _ _ _ => (y, m)
  | .rankSingle y m _ _ => (y, m)
  | .rankRange y m _ _ _ => (y, m)

/-- Numeric value of a list of decimal-digit code units. -/
def numOf (l : List Nat) : Nat :=
  l.foldl (fun a c => a * 10 + (c - 48)) 0

/-- A bucket key whose year has exactly four decimal digits (and a calendar
month); within this range the lexicographic key order is chronological. -/
def keyOk (k : Int × Int) : Prop :=
  1000 ≤ k.1 ∧ k.1 ≤ 9999 ∧ 1 ≤ k.2 ∧ k.2 ≤ 12

/-- Chronological order on `(year, month)` pairs. -/
def chronLt (a b : Int × Int) : Prop :=
  a.1 < b.1 ∨ (a.1 = b.1 ∧ a.2 < b.2)

instance (k : Int × Int) : Decidable (keyOk k) := by
  unfold keyOk
  exact inferInstance

instance (a b : Int × Int) : Decidable (chronLt a b) := by
  unfold chronLt
  exact inferInstance

/-! ## Theorems -/

/-! ## Theorems for claims C1, C2, C3 -/

/-- C1 counterexample: the decoded wall-clock instant of raw timestamp `t = 0`
is 1 Jan 2011 00:00 UTC, not the claimed 21 Jan 2011 epoch: the claim's formula
`epochMillis(21 Jan 2011) + t·60000` disagrees with the code at `t = 0`. -/
theorem keepaEpoch_cex :
    keepaMinutesToUnixMs 0 ≠ specClaimEpochMs + 0 * 60000 ∧
    civilFromMs (keepaMinutesToUnixMs 0) = (2011, 1, 1) ∧
    civilFromMs specClaimEpochMs = (2011, 1, 21) := by
  refine ⟨by decide, by decide, by decide⟩

/-- C1 (amended): for every raw provider timestamp `t` (minutes), the decoded
wall-clock instant equals the epoch 1 Jan 2011 00:00 UTC expressed in unix
milliseconds plus `t * 60000`, and `formatKeepaDate t` renders the calendar
date of exactly that instant. -/
theorem keepaMinutesToUnixMs_spec (t : Int) :
    keepaMinutesToUnixMs t = codeEpochMs + t * 60000 ∧
    civilFromMs codeEpochMs = (2011, 1, 1) ∧
    formatKeepaDateCivil t = civilFromMs (codeEpochMs + t * 60000) := by
  refine ⟨?_, by decide, ?_⟩
  · unfold keepaMinutesToUnixMs codeEpochMs; ring
  · unfold formatKeepaDateCivil keepaMinutesToUnixMs codeEpochMs
    norm_num [add_comm, add_mul]

/-- C2 counterexample: an interval-extrema field holding the bare number 500 —
neither `null`/`undefined` nor a 2-element pair — is silently coerced: the
extraction yields the value 500 and `lookupProduct` reports it as the minimum
price; no `DecodeError` is raised (the code has no error path here). -/
theorem extremum_coercion_cex :
    extremumValue (RawStatField.num 500) = some 500 ∧
    lookupMinShown (RawStatField.num 500) = some 500 := by
  exact ⟨rfl, rfl⟩

/-- C2 (amended): an interval-extrema field decodes as follows: absence
(`null`/`undefined`) yields no extremum; a `[timestamp, value]` pair yields the
value at index 1 and the timestamp at index 0; but a bare number is silently
used as the value itself, and an array with fewer than 2 entries yields an
`undefined` value — the decode never raises a `DecodeError` (no such error
path exists in the code). -/
theorem extremum_decode_spec (n t v : Int) :
    extremumValue RawStatField.null = none ∧
    extremumValue (RawStatField.arr [t, v]) = some v ∧
    extremumTime (RawStatField.arr [t, v]) = some t ∧
    extremumValue (RawStatField.num n) = some n ∧
    extremumTime (RawStatField.num n) = none ∧
    extremumValue (RawStatField.arr [t]) = none ∧
    extremumValue (RawStatField.arr []) = none := by
  refine ⟨rfl, rfl, rfl, rfl, rfl, rfl, rfl⟩

/-- C3: on a price-like series a pair with sentinel value −1 contributes no
sample (it is dropped, never a literal price); on a rank-like series exactly
the decoded pairs with value ≥ 0 are kept; and the pair `(1000, 500)` on a
price-type series decodes to one sample of value 500 with timestamp
`epochMillis + 1000 * 60000`. -/
theorem sentinel_handling_spec (t : Int) (rest : List Int) (raw : List Int)
    (s : Sample) :
    priceHistorySeries (t :: (-1) :: rest) = priceHistorySeries rest ∧
    (s ∈ rankHistorySeries raw ↔ s ∈ parseCSVData raw ∧ 0 ≤ s.value) ∧
    priceHistorySeries [1000, -1] = [] ∧
    priceHistorySeries [1000, 500] = [⟨codeEpochMs + 1000 * 60000, 500⟩] := by
  refine ⟨?_, ?_, by decide, by decide⟩
  · simp [priceHistorySeries, parseCSVData]
  · simp [rankHistorySeries, List.mem_filter, decide_eq_true_eq]

/-- C8: every public `KeepaTools` tool method settles to a string for every
outcome of its body: a successful body's string is returned as-is, and any
exception the body throws is caught and rendered into the returned error text
(with each method's own prefix and message rendering), so the promise never
rejects. -/
theorem tools_never_reject (s : String) (e : JsThrown) :
    lookupProductSettled (.ok s) = s ∧
    lookupProductSettled (.error e) = "Error looking up product: " ++ msgOrString e ∧
    batchLookupProductsSettled (.ok s) = s ∧
    batchLookupProductsSettled (.error e) = "Error in batch lookup: " ++ msgOrUnknown e ∧
    searchDealsSettled (.ok s) = s ∧
    searchDealsSettled (.error e) = "Error searching deals: " ++ msgOrUnknown e ∧
    lookupSellerSettled (.ok s) = s ∧
    lookupSellerSettled (.error e) = "Error looking up seller: " ++ msgOrUnknown e ∧
    getBestSellersSettled (.ok s) = s ∧
    getBestSellersSettled (.error e) = "Error getting best sellers: " ++ msgOrUnknown e ∧
    getPriceHistorySettled (.ok s) = s ∧
    getPriceHistorySettled (.error e) = "Error obteniendo historial: " ++ msgOrString e ∧
    findProductsSettled (.ok s) = s ∧
    findProductsSettled (.error e) = "Error in product finder: " ++ finderMessage e ∧
    analyzeCategorySettled (.ok s) = s ∧
    analyzeCategorySettled (.error e) = "Error analyzing category: " ++ finderMessage e ∧
    analyzeSalesVelocitySettled (.ok s) = s ∧
    analyzeSalesVelocitySettled (.error e) = "Error analyzing sales velocity: " ++ msgOrUnknown e ∧
    analyzeInventorySettled (.ok s) = s ∧
    analyzeInventorySettled (.error e) = "Error analyzing inventory: " ++ msgOrUnknown e ∧
    getTokenStatusSettled (.ok s) = s ∧
    getTokenStatusSettled (.error e) = "Error checking token status: " ++ msgOrUnknown e := by
  repeat' constructor

/-- C9: invoking `lookupProduct` with neither an ASIN nor a product code
returns the validation error string immediately, with zero provider-client
calls issued, so the token budget is untouched. -/
theorem lookupProduct_validation_first (p : LookupProductParams)
    (bodyResult : String)
    (ha : jsTruthyStr p.asin = false) (hc : jsTruthyStr p.code = false) :
    lookupProductRun p bodyResult =
      ("Error: Either ASIN or code (EAN/UPC) is required", 0) := by
  simp [lookupProductRun, ha, hc]

/-- Witness for C9: the concrete parameter record with both identifiers
absent hits the guard. -/
theorem lookupProduct_validation_first_witness :
    lookupProductRun ⟨none, none⟩ "ignored" =
      ("Error: Either ASIN or code (EAN/UPC) is required", 0) :=
  lookupProduct_validation_first ⟨none, none⟩ "ignored" rfl rfl

/-- C6 counterexample: a window going from 100 to 103 has a relative change of
exactly 3%, which is not below the 3% threshold, yet the code reports the trend
as stable (the comparison is strict `change > 3`), contradicting the claim
that any change not below the threshold is reported as up/down. -/
theorem trend_threshold_cex :
    changePct 100 103 = 3 ∧ ¬ ((3 : ℚ) < 3) ∧
    seriesTrend [⟨0, 100⟩, ⟨60000, 103⟩] = some PriceTrend.stable := by
  refine ⟨by norm_num [changePct], by norm_num, ?_⟩
  simp only [seriesTrend, List.length_cons, List.length_nil, List.head?_cons,
    List.getLast?]
  norm_num [trendOf, changePct]

/-- C6 (amended): for every decoded series with at least two samples whose
first and last values are both positive, the reported trend is the relative
percentage change between those two samples: strictly more than +3% is
reported as up and strictly less than −3% as down (each with the signed
magnitude), while any change of absolute value ≤ 3% — the boundary included —
is reported as stable; series whose endpoints are not both positive get no
trend line. -/
theorem seriesTrend_spec (data : List Sample) (f l : Sample)
    (hlen : 2 ≤ data.length)
    (hhead : data.head? = some f) (hlast : data.getLast? = some l)
    (hf : 0 < f.value) (hl : 0 < l.value) :
    seriesTrend data = some (trendOf (f.value : ℚ) (l.value : ℚ)) ∧
    (3 < changePct (f.value : ℚ) (l.value : ℚ) →
      trendOf (f.value : ℚ) (l.value : ℚ) =
        .up (changePct (f.value : ℚ) (l.value : ℚ))) ∧
    (changePct (f.value : ℚ) (l.value : ℚ) < -3 →
      trendOf (f.value : ℚ) (l.value : ℚ) =
        .down (changePct (f.value : ℚ) (l.value : ℚ))) ∧
    (-3 ≤ changePct (f.value : ℚ) (l.value : ℚ) →
      changePct (f.value : ℚ) (l.value : ℚ) ≤ 3 →
      trendOf (f.value : ℚ) (l.value : ℚ) = .stable) := by
  refine ⟨?_, ?_, ?_, ?_⟩
  · rw [seriesTrend, if_pos hlen, hhead, hlast]
    exact if_pos ⟨hf, hl⟩
  · intro h; rw [trendOf, if_pos h]
  · intro h
    rw [trendOf, if_neg (by linarith), if_pos h]
  · intro h1 h2
    rw [trendOf, if_neg (by linarith), if_neg (by linarith)]

/-- Witness for C6 (amended): a concrete two-sample series rising from 100 to
110 (a +10% change) is classified as up. -/
theorem seriesTrend_spec_witness :
    seriesTrend [⟨0, 100⟩, ⟨60000, 110⟩] =
      some (trendOf (100 : ℚ) (110 : ℚ)) ∧
    trendOf (100 : ℚ) (110 : ℚ) = .up (changePct 100 110) := by
  have h := seriesTrend_spec [⟨0, 100⟩, ⟨60000, 110⟩] ⟨0, 100⟩ ⟨60000, 110⟩
    (by decide) rfl rfl (by decide) (by decide)
  have hc : (3 : ℚ) < changePct 100 110 := by norm_num [changePct]
  exact ⟨by simpa using h.1, by simpa using h.2.1 hc⟩

/-- C7: for every submitted identifier list, the rendered products are exactly
the identifiers the provider returned, in the input's relative order, and the
identifiers absent from the provider's response are exactly the separate
not-found set — the call produces a result rather than failing.  (Hypothesis:
the provider's response keys each entry by the requested identifier.) -/
theorem batchLookup_order_notfound (asins : List String)
    (provider : String → Option BatchProduct)
    (hcoh : ∀ a p, provider a = some p → p.asin = a) :
    (batchLookupProductsOutcome asins provider).foundAsins =
      asins.filter (fun a => (provider a).isSome) ∧
    (batchLookupProductsOutcome asins provider).notFound =
      asins.filter (fun a => (provider a).isNone) := by
  constructor
  · show (asins.filterMap provider).map (fun p => p.asin) = _
    induction asins with
    | nil => rfl
    | cons a rest ih =>
      cases hp : provider a with
      | none => simpa [List.filterMap_cons, hp] using ih
      | some p =>
        have : p.asin = a := hcoh a p hp
        simp [List.filterMap_cons, hp, this, ih]
  · show batchNotFound asins (asins.filterMap provider) = _
    unfold batchNotFound
    apply List.filter_congr
    intro a ha
    rcases hp : provider a with _ | p
    · simp only [Option.isNone_none]
      rw [Bool.not_eq_eq_eq_not]
      simp only [Bool.not_true, List.any_eq_false]
      intro p hp'
      rcases List.mem_filterMap.mp hp' with ⟨a', _, hpa'⟩
      have hpa : p.asin = a' := hcoh a' p hpa'
      simp only [hpa, beq_eq_false_iff_ne, ne_eq]
      intro h
      rw [eq_of_beq h, hp] at hpa'
      exact Option.noConfusion hpa'
    · have hmem : p ∈ asins.filterMap provider :=
        List.mem_filterMap.mpr ⟨a, ha, hp⟩
      have : (asins.filterMap provider).any (fun q => q.asin == a) = true :=
        List.any_eq_true.mpr ⟨p, hmem, by simp [hcoh a p hp]⟩
      simp [this, hp]

/-- Witness for C7: three requested identifiers of which the provider returns
the first and third: they are rendered in input order and the second is the
not-found set. -/
theorem batchLookup_order_notfound_witness :
    (batchLookupProductsOutcome ["A", "B", "C"]
      (fun a => if a = "B" then none else some ⟨a⟩)).foundAsins = ["A", "C"] ∧
    (batchLookupProductsOutcome ["A", "B", "C"]
      (fun a => if a = "B" then none else some ⟨a⟩)).notFound = ["B"] := by
  have h := batchLookup_order_notfound ["A", "B", "C"]
    (fun a => if a = "B" then none else some ⟨a⟩)
    (by
      intro a p hp
      dsimp only at hp
      by_cases hab : a = "B"
      · rw [if_pos hab] at hp; exact Option.noConfusion hp
      · rw [if_neg hab] at hp
        cases hp
        rfl)
  refine ⟨h.1.trans (by decide), h.2.trans (by decide)⟩

/-- C4 counterexample: for a product with no provider units-sold figure,
`getRealSalesVelocityData` does not omit the velocity fields — it reports
them as zero (daily 0, weekly 0, monthly 0), contradicting the claim that the
fields are omitted rather than zero. -/
theorem velocity_zero_not_omitted_cex :
    (velocityFieldsOf noMonthlySoldProduct).monthly = 0 ∧
    (velocityFieldsOf noMonthlySoldProduct).daily = 0 ∧
    (velocityFieldsOf noMonthlySoldProduct).weekly = 0 := by
  refine ⟨rfl, ?_, ?_⟩ <;>
    norm_num [velocityFieldsOf, noMonthlySoldProduct, numOr, round1, jsRound]

/-- C4 (amended): velocity figures are computed only from the provider's
`monthlySold`: `lookupProduct` omits its velocity block whenever `monthlySold`
is absent or non-positive and renders it from `monthlySold` alone otherwise,
while `getRealSalesVelocityData` (serving `analyzeSalesVelocity`) always emits
a velocity record, whose figures are all zero (with a `Declining` tag) when the
provider supplies no figure — zeros rather than omission; neither operation
derives a sales estimate from the sales rank: the velocity record is invariant
under any change of `salesRank` (and of `price`). -/
theorem velocity_from_monthlySold_spec (m : Int) (p : VelocityProduct)
    (r c : Int) (hm : m ≤ 0)
    (hnone : p.monthlySold = none) (hsnone : p.statsMonthlySold = none) :
    lookupVelocityBlock none = none ∧
    lookupVelocityBlock (some m) = none ∧
    (∀ k : Int, 0 < k → lookupVelocityBlock (some k) =
      some (k, round1 ((k : ℚ) / 30), round1 ((k : ℚ) / (43/10)))) ∧
    velocityFieldsOf p = ⟨0, 0, 0, .declining, 0⟩ ∧
    velocityFieldsOf { p with salesRank := r, price := c } =
      velocityFieldsOf p := by
  refine ⟨rfl, ?_, ?_, ?_, rfl⟩
  · simp only [lookupVelocityBlock]
    rw [if_neg]
    rintro ⟨-, hpos⟩
    omega
  · intro k hk
    have hcond : k ≠ 0 ∧ 0 < k := ⟨by omega, hk⟩
    simp only [lookupVelocityBlock, if_pos hcond]
  · rw [velocityFieldsOf, hnone, hsnone]
    have hz : numOr none (numOr none 0) = 0 := rfl
    rw [hz]
    norm_num [round1, jsRound]

/-- Witness for C4 (amended): concrete instantiation at `m = -3` and the
no-units-sold product. -/
theorem velocity_from_monthlySold_spec_witness :
    lookupVelocityBlock (some (-3)) = none ∧
    velocityFieldsOf noMonthlySoldProduct = ⟨0, 0, 0, .declining, 0⟩ := by
  have h := velocity_from_monthlySold_spec (-3) noMonthlySoldProduct 7 7
    (by norm_num) rfl rfl
  exact ⟨h.2.1, h.2.2.2.1⟩

theorem insertSorted_perm {α : Type} (le : α → α → Bool) (x : α) (l : List α) :
    (insertSorted le x l).Perm (x :: l) := by
  induction l with
  | nil => exact List.Perm.refl _
  | cons y ys ih =>
    rw [insertSorted]
    by_cases h : le y x = true
    · rw [if_pos h]
      exact (ih.cons y).trans (List.Perm.swap x y ys)
    · rw [if_neg h]

theorem stableSortAux_perm {α : Type} (le : α → α → Bool) :
    ∀ (l acc : List α),
      (l.foldl (fun acc x => insertSorted le x acc) acc).Perm (acc ++ l) := by
  intro l
  induction l with
  | nil => simp
  | cons x xs ih =>
    intro acc
    simp only [List.foldl_cons]
    refine (ih (insertSorted le x acc)).trans ?_
    refine (List.Perm.append_right xs (insertSorted_perm le x acc)).trans ?_
    exact List.perm_middle.symm

theorem stableSort_perm {α : Type} (le : α → α → Bool) (l : List α) :
    (stableSort le l).Perm l := by
  simpa using stableSortAux_perm le l []

theorem pairwise_insertSorted {α : Type} (le : α → α → Bool)
    (htot : ∀ a b, le a b = true ∨ le b a = true)
    (htrans : ∀ a b c, le a b = true → le b c = true → le a c = true)
    (x : α) (l : List α) (h : l.Pairwise (fun a b => le a b = true)) :
    (insertSorted le x l).Pairwise (fun a b => le a b = true) := by
  induction l with
  | nil => simp [insertSorted]
  | cons y ys ih =>
    rw [insertSorted]
    rcases List.pairwise_cons.mp h with ⟨hy, hys⟩
    by_cases hyx : le y x = true
    · rw [if_pos hyx]
      refine List.pairwise_cons.mpr ⟨?_, ih hys⟩
      intro z hz
      rcases List.mem_cons.mp ((insertSorted_perm le x ys).mem_iff.mp hz) with
        rfl | hz'
      · exact hyx
      · exact hy z hz'
    · rw [if_neg hyx]
      have hxy : le x y = true := (htot x y).resolve_right hyx
      refine List.pairwise_cons.mpr ⟨?_, h⟩
      intro z hz
      rcases List.mem_cons.mp hz with rfl | hz'
      · exact hxy
      · exact htrans x y z hxy (hy z hz')

theorem pairwise_stableSort {α : Type} (le : α → α → Bool)
    (htot : ∀ a b, le a b = true ∨ le b a = true)
    (htrans : ∀ a b c, le a b = true → le b c = true → le a c = true)
    (l : List α) :
    (stableSort le l).Pairwise (fun a b => le a b = true) := by
  suffices h : ∀ (l acc : List α),
      acc.Pairwise (fun a b => le a b = true) →
      (l.foldl (fun acc x => insertSorted le x acc) acc).Pairwise
        (fun a b => le a b = true) from h l [] (List.Pairwise.nil)
  intro l
  induction l with
  | nil => intro acc hacc; simpa using hacc
  | cons x xs ih =>
    intro acc hacc
    simp only [List.foldl_cons]
    exact ih _ (pairwise_insertSorted le htot htrans x acc hacc)

theorem lexLt_cons_iff (x d : Nat) (xs ds : List Nat) :
    lexLtCodes (x :: xs) (d :: ds) = true ↔
      x < d ∨ (x = d ∧ lexLtCodes xs ds = true) := by
  rw [lexLtCodes]
  by_cases h1 : x < d
  · simp [h1]
  · by_cases h2 : d < x
    · simp only [if_neg h1, if_pos h2]
      constructor
      · intro h; exact absurd h (by simp)
      · intro h; omega
    · have hxd : x = d := by omega
      simp [h1, h2, hxd]

theorem lexLt_nil_right (a : List Nat) : lexLtCodes a [] = false := by
  cases a <;> rfl

theorem lexLt_irrefl : ∀ a : List Nat, lexLtCodes a a = false := by
  intro a
  induction a with
  | nil => rfl
  | cons c cs ih => simp [lexLtCodes, ih]

theorem lexLt_asymm : ∀ a b : List Nat,
    lexLtCodes a b = true → lexLtCodes b a = false := by
  intro a
  induction a with
  | nil =>
    intro b h
    cases b with
    | nil => exact absurd h (by simp [lexLt_nil_right])
    | cons d ds => rfl
  | cons x xs ih =>
    intro b h
    cases b with
    | nil => exact absurd h (by simp [lexLt_nil_right])
    | cons d ds =>
      rw [lexLt_cons_iff] at h
      rw [Bool.eq_false_iff]
      intro hcontra
      rw [lexLt_cons_iff] at hcontra
      rcases h with h1 | ⟨rfl, h1⟩
      · rcases hcontra with h2 | ⟨heq, h2⟩
        · omega
        · omega
      · rcases hcontra with h2 | ⟨heq, h2⟩
        · omega
        · exact absurd h2 (by simp [ih ds h1])

theorem lexLt_trans : ∀ a b c : List Nat,
    lexLtCodes a b = true → lexLtCodes b c = true → lexLtCodes a c = true := by
  intro a
  induction a with
  | nil =>
    intro b c hab hbc
    cases c with
    | cons e es => rfl
    | nil =>
      rw [lexLt_nil_right] at hbc
      exact absurd hbc (by simp)
  | cons x xs ih =>
    intro b c hab hbc
    cases b with
    | nil => exact absurd hab (by simp [lexLt_nil_right])
    | cons d ds =>
      cases c with
      | nil =>
        rw [lexLt_nil_right] at hbc
        exact absurd hbc (by simp)
      | cons e es =>
        rw [lexLt_cons_iff] at hab hbc ⊢
        rcases hab with h1 | ⟨rfl, h1⟩
        · rcases hbc with h2 | ⟨rfl, h2⟩
          · exact Or.inl (by omega)
          · exact Or.inl h1
        · rcases hbc with h2 | ⟨rfl, h2⟩
          · exact Or.inl h2
          · exact Or.inr ⟨rfl, ih ds es h1 h2⟩

theorem lexLt_connex : ∀ a b : List Nat, a ≠ b →
    lexLtCodes a b = true ∨ lexLtCodes b a = true := by
  intro a
  induction a with
  | nil =>
    intro b hne
    cases b with
    | nil => exact absurd rfl hne
    | cons d ds => exact Or.inl rfl
  | cons x xs ih =>
    intro b hne
    cases b with
    | nil => exact Or.inr rfl
    | cons d ds =>
      rw [lexLt_cons_iff, lexLt_cons_iff]
      rcases Nat.lt_trichotomy x d with h | h | h
      · exact Or.inl (Or.inl h)
      · subst h
        have hne' : xs ≠ ds := fun hh => hne (by rw [hh])
        rcases ih ds hne' with h' | h'
        · exact Or.inl (Or.inr ⟨rfl, h'⟩)
        · exact Or.inr (Or.inr ⟨rfl, h'⟩)
      · exact Or.inr (Or.inl h)

theorem entryLe_total (a b : (Int × Int) × List Int) :
    entryLe a b = true ∨ entryLe b a = true := by
  unfold entryLe
  by_cases h : lexLtCodes (entryCodes b) (entryCodes a) = true
  · exact Or.inr (by simp [lexLt_asymm _ _ h])
  · exact Or.inl (by simp [Bool.eq_false_iff.mpr h])

theorem entryLe_trans (a b c : (Int × Int) × List Int)
    (hab : entryLe a b = true) (hbc : entryLe b c = true) :
    entryLe a c = true := by
  unfold entryLe at *
  rw [Bool.not_eq_eq_eq_not, Bool.not_true] at hab hbc ⊢
  rw [Bool.eq_false_iff]
  intro hca
  rcases eq_or_ne (entryCodes c) (entryCodes b) with heq | hne
  · rw [heq] at hca
    exact absurd hca (by simp [hab])
  · rcases lexLt_connex _ _ hne with h | h
    · exact absurd h (by simp [hbc])
    · exact absurd (lexLt_trans _ _ _ h hca) (by simp [hab])

theorem digitsFuel_congr : ∀ (f1 f2 n : Nat), n < f1 → n < f2 →
    digitsFuel f1 n = digitsFuel f2 n := by
  intro f1
  induction f1 with
  | zero => intro f2 n h1 h2; omega
  | succ g ih =>
    intro f2 n h1 h2
    cases f2 with
    | zero => omega
    | succ g2 =>
      rw [digitsFuel, digitsFuel]
      by_cases h10 : n < 10
      · rw [if_pos h10, if_pos h10]
      · rw [if_neg h10, if_neg h10]
        have hd : n / 10 < n := Nat.div_lt_self (by omega) (by omega)
        rw [ih g2 (n / 10) (by omega) (by omega)]

theorem natCodes_base {n : Nat} (h : n < 10) : natCodes n = [48 + n] := by
  rw [natCodes, digitsFuel, if_pos h]

theorem natCodes_step {n : Nat} (h : 10 ≤ n) :
    natCodes n = natCodes (n / 10) ++ [48 + n % 10] := by
  rw [natCodes, digitsFuel, if_neg (by omega)]
  have hd : n / 10 < n := Nat.div_lt_self (by omega) (by omega)
  rw [natCodes, digitsFuel_congr n (n / 10 + 1) (n / 10) (by omega) (by omega)]

theorem natCodes_digits (n : Nat) : ∀ c ∈ natCodes n, 48 ≤ c ∧ c ≤ 57 := by
  induction n using Nat.strong_induction_on with
  | _ n ih =>
    by_cases h10 : n < 10
    · rw [natCodes_base h10]
      intro c hc
      rw [List.mem_singleton] at hc
      omega
    · rw [natCodes_step (by omega)]
      intro c hc
      rcases List.mem_append.mp hc with hc' | hc'
      · exact ih (n / 10) (Nat.div_lt_self (by omega) (by omega)) c hc'
      · rw [List.mem_singleton] at hc'
        have := Nat.mod_lt n (show 0 < 10 by omega)
        omega

theorem numOf_shift : ∀ (cs : List Nat) (i : Nat),
    cs.foldl (fun a c => a * 10 + (c - 48)) i =
      i * 10 ^ cs.length + numOf cs := by
  intro cs
  induction cs with
  | nil => intro i; simp [numOf]
  | cons c cs ih =>
    intro i
    rw [List.foldl_cons, ih]
    have h2 : numOf (c :: cs) = (c - 48) * 10 ^ cs.length + numOf cs := by
      rw [numOf, List.foldl_cons, ih]
      ring_nf
    rw [h2, List.length_cons]
    ring

theorem numOf_cons (c : Nat) (cs : List Nat) :
    numOf (c :: cs) = (c - 48) * 10 ^ cs.length + numOf cs := by
  rw [numOf, List.foldl_cons, numOf_shift]
  ring_nf

theorem numOf_lt (cs : List Nat) (h : ∀ c ∈ cs, 48 ≤ c ∧ c ≤ 57) :
    numOf cs < 10 ^ cs.length := by
  induction cs with
  | nil => simp [numOf]
  | cons c cs ih =>
    rw [numOf_cons, List.length_cons, pow_succ]
    have hc := h c (List.mem_cons_self c cs)
    have hcs := ih (fun x hx => h x (List.mem_cons_of_mem c hx))
    have h9 : c - 48 ≤ 9 := by omega
    have hmul : (c - 48) * 10 ^ cs.length ≤ 9 * 10 ^ cs.length :=
      Nat.mul_le_mul_right _ h9
    have hp : 1 ≤ 10 ^ cs.length := Nat.one_le_pow _ _ (by omega)
    omega

theorem numOf_natCodes (n : Nat) : numOf (natCodes n) = n := by
  induction n using Nat.strong_induction_on with
  | _ n ih =>
    by_cases h10 : n < 10
    · rw [natCodes_base h10, numOf]
      simp
    · rw [natCodes_step (by omega)]
      rw [numOf, List.foldl_append, ← numOf, numOf_shift]
      rw [ih (n / 10) (Nat.div_lt_self (by omega) (by omega))]
      have : numOf [48 + n % 10] = n % 10 := by simp [numOf]
      rw [this]
      simp only [List.length_singleton, pow_one]
      omega

theorem natCodes_len4 {n : Nat} (h1 : 1000 ≤ n) (h2 : n ≤ 9999) :
    (natCodes n).length = 4 := by
  rw [natCodes_step (by omega), natCodes_step (by omega),
    natCodes_step (by omega), natCodes_base (by omega)]
  simp

theorem lexLt_digits_iff : ∀ (a b x y : List Nat),
    (∀ c ∈ a, 48 ≤ c ∧ c ≤ 57) → (∀ c ∈ b, 48 ≤ c ∧ c ≤ 57) →
    a.length = b.length →
    (lexLtCodes (a ++ x) (b ++ y) = true ↔
      numOf a < numOf b ∨ (a = b ∧ lexLtCodes x y = true)) := by
  intro a
  induction a with
  | nil =>
    intro b x y _ _ hlen
    cases b with
    | nil => simp
    | cons d ds => simp at hlen
  | cons c cs ih =>
    intro b x y ha hb hlen
    cases b with
    | nil => simp at hlen
    | cons d ds =>
      have hc := ha c (List.mem_cons_self c cs)
      have hd := hb d (List.mem_cons_self d ds)
      have hcs : ∀ e ∈ cs, 48 ≤ e ∧ e ≤ 57 :=
        fun e he => ha e (List.mem_cons_of_mem c he)
      have hds : ∀ e ∈ ds, 48 ≤ e ∧ e ≤ 57 :=
        fun e he => hb e (List.mem_cons_of_mem d he)
      have hlen' : cs.length = ds.length := by simpa using hlen
      rw [List.cons_append, List.cons_append, lexLt_cons_iff]
      rw [numOf_cons, numOf_cons, hlen']
      have hnc := numOf_lt cs hcs
      have hnd := numOf_lt ds hds
      rw [hlen'] at hnc
      have hp : 1 ≤ 10 ^ ds.length := Nat.one_le_pow _ _ (by omega)
      constructor
      · rintro (hlt | ⟨rfl, hrec⟩)
        · left
          have h1 : c - 48 + 1 ≤ d - 48 := by omega
          have : (c - 48 + 1) * 10 ^ ds.length ≤ (d - 48) * 10 ^ ds.length :=
            Nat.mul_le_mul_right _ h1
          have h2 : (c - 48) * 10 ^ ds.length + 10 ^ ds.length ≤
              (d - 48) * 10 ^ ds.length := by
            calc (c - 48) * 10 ^ ds.length + 10 ^ ds.length
                = (c - 48 + 1) * 10 ^ ds.length := by ring
              _ ≤ (d - 48) * 10 ^ ds.length := this
          omega
        · rcases (ih ds x y hcs hds hlen').mp hrec with hnum | ⟨rfl, hxy⟩
          · left; omega
          · right; exact ⟨rfl, hxy⟩
      · rintro (hnum | ⟨heq, hxy⟩)
        · rcases Nat.lt_trichotomy c d with hlt | heq | hgt
          · exact Or.inl hlt
          · subst heq
            right
            refine ⟨rfl, (ih ds x y hcs hds hlen').mpr (Or.inl (by omega))⟩
          · exfalso
            have h1 : d - 48 + 1 ≤ c - 48 := by omega
            have : (d - 48 + 1) * 10 ^ ds.length ≤ (c - 48) * 10 ^ ds.length :=
              Nat.mul_le_mul_right _ h1
            have h2 : (d - 48) * 10 ^ ds.length + 10 ^ ds.length ≤
                (c - 48) * 10 ^ ds.length := by
              calc (d - 48) * 10 ^ ds.length + 10 ^ ds.length
                  = (d - 48 + 1) * 10 ^ ds.length := by ring
                _ ≤ (c - 48) * 10 ^ ds.length := this
            omega
        · injection heq with hcd hcsds
          subst hcd
          subst hcsds
          exact Or.inr ⟨rfl, (ih cs x y hcs hcs rfl).mpr (Or.inr ⟨rfl, hxy⟩)⟩

theorem pad2_spec (m : Int) (h1 : 1 ≤ m) (h2 : m ≤ 12) :
    (∀ c ∈ pad2Codes m, 48 ≤ c ∧ c ≤ 57) ∧ (pad2Codes m).length = 2 ∧
    numOf (pad2Codes m) = m.toNat := by
  interval_cases m <;> exact ⟨by decide, by decide, by decide⟩

theorem pad2_inj (m1 m2 : Int) (h1 : 1 ≤ m1) (h2 : m1 ≤ 12) (h3 : 1 ≤ m2)
    (h4 : m2 ≤ 12) : pad2Codes m1 = pad2Codes m2 ↔ m1 = m2 := by
  constructor
  · intro h
    have e1 := (pad2_spec m1 h1 h2).2.2
    have e2 := (pad2_spec m2 h3 h4).2.2
    rw [h, e2] at e1
    omega
  · intro h; rw [h]

theorem natCodes_inj (n1 n2 : Nat) : natCodes n1 = natCodes n2 ↔ n1 = n2 := by
  constructor
  · intro h
    have := congrArg numOf h
    rwa [numOf_natCodes, numOf_natCodes] at this
  · intro h; rw [h]

theorem lexLt_cons_same (c : Nat) (u v : List Nat) :
    lexLtCodes (c :: u) (c :: v) = lexLtCodes u v := by
  rw [lexLtCodes]
  simp

theorem keyLt_iff (y1 m1 y2 m2 : Int) (r1 r2 : List Nat)
    (hy1a : 1000 ≤ y1) (hy1b : y1 ≤ 9999) (hy2a : 1000 ≤ y2) (hy2b : y2 ≤ 9999)
    (hm1a : 1 ≤ m1) (hm1b : m1 ≤ 12) (hm2a : 1 ≤ m2) (hm2b : m2 ≤ 12) :
    (lexLtCodes (keyCodes (y1, m1) ++ r1) (keyCodes (y2, m2) ++ r2) = true ↔
      (y1 < y2 ∨ (y1 = y2 ∧ (m1 < m2 ∨ (m1 = m2 ∧
        lexLtCodes r1 r2 = true))))) := by
  have hassoc : ∀ (y m : Int) (r : List Nat),
      keyCodes (y, m) ++ r = intCodes y ++ (45 :: (pad2Codes m ++ r)) := by
    intro y m r
    rw [keyCodes]
    simp
  rw [hassoc, hassoc]
  have hi1 : intCodes y1 = natCodes y1.toNat := by
    rw [intCodes, if_neg (by omega)]
  have hi2 : intCodes y2 = natCodes y2.toNat := by
    rw [intCodes, if_neg (by omega)]
  rw [hi1, hi2]
  have hlen : (natCodes y1.toNat).length = (natCodes y2.toNat).length := by
    rw [natCodes_len4 (by omega) (by omega), natCodes_len4 (by omega) (by omega)]
  rw [lexLt_digits_iff _ _ _ _ (natCodes_digits _) (natCodes_digits _) hlen]
  rw [numOf_natCodes, numOf_natCodes, natCodes_inj]
  rw [lexLt_cons_same]
  have hp1 := pad2_spec m1 hm1a hm1b
  have hp2 := pad2_spec m2 hm2a hm2b
  rw [lexLt_digits_iff _ _ _ _ hp1.1 hp2.1 (by rw [hp1.2.1, hp2.2.1])]
  rw [hp1.2.2, hp2.2.2, pad2_inj m1 m2 hm1a hm1b hm2a hm2b]
  have e1 : (y1.toNat < y2.toNat) = (y1 < y2) := by
    simp only [eq_iff_iff]; omega
  have e2 : (y1.toNat = y2.toNat) = (y1 = y2) := by
    simp only [eq_iff_iff]; omega
  have e3 : (m1.toNat < m2.toNat) = (m1 < m2) := by
    simp only [eq_iff_iff]; omega
  rw [e1, e2, e3]

theorem entryLe_chronLt (e1 e2 : (Int × Int) × List Int)
    (h1 : keyOk e1.1) (h2 : keyOk e2.1) (hne : e1.1 ≠ e2.1)
    (hle : entryLe e1 e2 = true) : chronLt e1.1 e2.1 := by
  obtain ⟨⟨ya, ma⟩, va⟩ := e1
  obtain ⟨⟨yb, mb⟩, vb⟩ := e2
  unfold keyOk at h1 h2
  simp only at h1 h2 hne ⊢
  by_contra hnc
  unfold chronLt at hnc
  simp only at hnc
  have hne' : ¬(ya = yb ∧ ma = mb) := by
    intro ⟨hy, hm⟩
    exact hne (by rw [hy, hm])
  have hgt : yb < ya ∨ (yb = ya ∧ mb < ma) := by omega
  have hcodes : lexLtCodes (entryCodes ((yb, mb), vb))
      (entryCodes ((ya, ma), va)) = true := by
    show lexLtCodes (keyCodes (yb, mb) ++ (44 :: joinCommaCodes (vb.map intCodes)))
      (keyCodes (ya, ma) ++ (44 :: joinCommaCodes (va.map intCodes))) = true
    rw [keyLt_iff yb mb ya ma _ _ (by omega) (by omega) (by omega) (by omega)
      (by omega) (by omega) (by omega) (by omega)]
    rcases hgt with h | ⟨h, h'⟩
    · exact Or.inl h
    · exact Or.inr ⟨h, Or.inl h'⟩
  unfold entryLe at hle
  rw [hcodes] at hle
  exact absurd hle (by simp)

theorem keys_insertValue (k : Int × Int) (v : Int)
    (g : List ((Int × Int) × List Int)) :
    (insertValue k v g).map Prod.fst =
      if k ∈ g.map Prod.fst then g.map Prod.fst
      else g.map Prod.fst ++ [k] := by
  induction g with
  | nil => simp [insertValue]
  | cons e rest ih =>
    obtain ⟨k', vs⟩ := e
    rw [insertValue]
    by_cases h : k' = k
    · subst h
      simp [List.mem_cons]
    · rw [if_neg h]
      simp only [List.map_cons]
      rw [ih]
      have hne : ¬ k = k' := fun heq => h heq.symm
      by_cases hk : k ∈ rest.map Prod.fst
      · rw [if_pos hk, if_pos (by simp [List.mem_cons, hk])]
      · have hnm : k ∉ (k', vs).1 :: rest.map Prod.fst := by
          simp [List.mem_cons, hne, hk]
        rw [if_neg hk, if_neg hnm]
        simp

theorem keys_nodup_insertValue (k : Int × Int) (v : Int)
    (g : List ((Int × Int) × List Int)) (h : (g.map Prod.fst).Nodup) :
    ((insertValue k v g).map Prod.fst).Nodup := by
  rw [keys_insertValue]
  by_cases hk : k ∈ g.map Prod.fst
  · rw [if_pos hk]; exact h
  · rw [if_neg hk]
    simp [List.nodup_append, h, hk]

theorem groupMonths_keys_nodup_aux :
    ∀ (data : List Sample) (g : List ((Int × Int) × List Int)),
      (g.map Prod.fst).Nodup →
      ((data.foldl (fun g s => insertValue (monthOf s) s.value g) g).map
        Prod.fst).Nodup := by
  intro data
  induction data with
  | nil => intro g h; simpa using h
  | cons s rest ih =>
    intro g h
    simp only [List.foldl_cons]
    exact ih _ (keys_nodup_insertValue _ _ _ h)

theorem groupMonths_keys_nodup (data : List Sample) :
    ((groupMonths data).map Prod.fst).Nodup :=
  groupMonths_keys_nodup_aux data [] (by simp)

theorem groupMonths_keys_sub_aux :
    ∀ (data : List Sample) (g : List ((Int × Int) × List Int))
      (e : (Int × Int) × List Int),
      e ∈ data.foldl (fun g s => insertValue (monthOf s) s.value g) g →
      e.1 ∈ g.map Prod.fst ∨ e.1 ∈ data.map monthOf := by
  intro data
  induction data with
  | nil =>
    intro g e h
    simp only [List.foldl_nil] at h
    exact Or.inl (List.mem_map_of_mem _ h)
  | cons s rest ih =>
    intro g e h
    simp only [List.foldl_cons] at h
    rcases ih _ e h with h' | h'
    · rw [keys_insertValue] at h'
      by_cases hk : monthOf s ∈ g.map Prod.fst
      · rw [if_pos hk] at h'
        exact Or.inl h'
      · rw [if_neg hk] at h'
        rcases List.mem_append.mp h' with h'' | h''
        · exact Or.inl h''
        · right
          rw [List.mem_singleton.mp h'']
          exact List.mem_map_of_mem monthOf (List.mem_cons_self s rest)
    · right
      simp only [List.map_cons, List.mem_cons]
      exact Or.inr h'

theorem groupMonths_keys_sub (data : List Sample)
    (e : (Int × Int) × List Int) (h : e ∈ groupMonths data) :
    e.1 ∈ data.map monthOf := by
  rcases groupMonths_keys_sub_aux data [] e h with h' | h'
  · simp at h'
  · exact h'

theorem bucketMonth_renderBucket (isPrice : Bool)
    (e : (Int × Int) × List Int) :
    bucketMonth (renderBucket isPrice e) = e.1 := by
  unfold renderBucket
  cases hf : e.2.filter (fun v => 0 < v) with
  | nil => rfl
  | cons v vs =>
    dsimp only
    split <;> split <;> simp [bucketMonth]

theorem foldl_min_le_init : ∀ (vs : List Int) (v : Int), vs.foldl min v ≤ v := by
  intro vs
  induction vs with
  | nil => intro v; simp
  | cons w ws ih =>
    intro v
    simp only [List.foldl_cons]
    exact le_trans (ih (min v w)) (min_le_left v w)

theorem foldl_min_le_mem : ∀ (vs : List Int) (v x : Int), x ∈ vs →
    vs.foldl min v ≤ x := by
  intro vs
  induction vs with
  | nil => intro v x hx; simp at hx
  | cons w ws ih =>
    intro v x hx
    simp only [List.foldl_cons]
    rcases List.mem_cons.mp hx with rfl | hx'
    · exact le_trans (foldl_min_le_init ws (min v x)) (min_le_right v x)
    · exact ih (min v w) x hx'

theorem le_foldl_max_init : ∀ (vs : List Int) (v : Int), v ≤ vs.foldl max v := by
  intro vs
  induction vs with
  | nil => intro v; simp
  | cons w ws ih =>
    intro v
    simp only [List.foldl_cons]
    exact le_trans (le_max_left v w) (ih (max v w))

theorem le_foldl_max_mem : ∀ (vs : List Int) (v x : Int), x ∈ vs →
    x ≤ vs.foldl max v := by
  intro vs
  induction vs with
  | nil => intro v x hx; simp at hx
  | cons w ws ih =>
    intro v x hx
    simp only [List.foldl_cons]
    rcases List.mem_cons.mp hx with rfl | hx'
    · exact le_trans (le_max_right v x) (le_foldl_max_init ws (max v x))
    · exact ih (max v w) x hx'

theorem sumI_shift : ∀ (l : List Int) (i : Int),
    l.foldl (· + ·) i = i + l.foldl (· + ·) 0 := by
  intro l
  induction l with
  | nil => intro i; simp
  | cons x xs ih =>
    intro i
    simp only [List.foldl_cons]
    rw [ih (i + x), ih (0 + x)]
    ring

theorem sum_lower (l : List Int) (mn : Int) (h : ∀ x ∈ l, mn ≤ x) :
    (l.length : Int) * mn ≤ l.foldl (· + ·) 0 := by
  induction l with
  | nil => simp
  | cons x xs ih =>
    have hx := h x (List.mem_cons_self x xs)
    have ih' := ih (fun y hy => h y (List.mem_cons_of_mem x hy))
    rw [List.foldl_cons, sumI_shift xs (0 + x), List.length_cons]
    push_cast
    linarith

theorem sum_upper (l : List Int) (mx : Int) (h : ∀ x ∈ l, x ≤ mx) :
    l.foldl (· + ·) 0 ≤ (l.length : Int) * mx := by
  induction l with
  | nil => simp
  | cons x xs ih =>
    have hx := h x (List.mem_cons_self x xs)
    have ih' := ih (fun y hy => h y (List.mem_cons_of_mem x hy))
    rw [List.foldl_cons, sumI_shift xs (0 + x), List.length_cons]
    push_cast
    linarith

theorem avg_between (l : List Int) (hl : l ≠ []) (mn mx : Int)
    (hmn : ∀ x ∈ l, mn ≤ x) (hmx : ∀ x ∈ l, x ≤ mx) :
    mn ≤ (2 * l.foldl (· + ·) 0 + (l.length : Int)).fdiv
        (2 * (l.length : Int)) ∧
    (2 * l.foldl (· + ·) 0 + (l.length : Int)).fdiv
        (2 * (l.length : Int)) ≤ mx := by
  have hnpos : (0 : Int) < (l.length : Int) := by
    have := List.length_pos.mpr hl
    omega
  have hs1 : (l.length : Int) * mn ≤ l.foldl (· + ·) 0 := sum_lower l mn hmn
  have hs2 : l.foldl (· + ·) 0 ≤ (l.length : Int) * mx := sum_upper l mx hmx
  set n : Int := (l.length : Int)
  set s : Int := l.foldl (· + ·) 0 with hsdef
  rw [Int.fdiv_eq_ediv _ (by omega)]
  have h2n : (2 : Int) * n ≠ 0 := by omega
  constructor
  · have hle : 2 * n * mn + n ≤ 2 * s + n := by linarith
    have hdiv := Int.ediv_le_ediv (by omega : (0:Int) < 2 * n) hle
    have heval : (2 * n * mn + n) / (2 * n) = mn := by
      rw [show 2 * n * mn + n = n + 2 * n * mn by ring,
        Int.add_mul_ediv_left n mn h2n,
        Int.ediv_eq_zero_of_lt (by omega) (by omega)]
      omega
    rw [heval] at hdiv
    exact hdiv
  · have hle : 2 * s + n ≤ 2 * n * mx + n := by linarith
    have hdiv := Int.ediv_le_ediv (by omega : (0:Int) < 2 * n) hle
    have heval : (2 * n * mx + n) / (2 * n) = mx := by
      rw [show 2 * n * mx + n = n + 2 * n * mx by ring,
        Int.add_mul_ediv_left n mx h2n,
        Int.ediv_eq_zero_of_lt (by omega) (by omega)]
      omega
    rw [heval] at hdiv
    exact hdiv

theorem aggregateMonthly_price_shape (data : List Sample) (b : Bucket)
    (hb : b ∈ aggregateMonthly true data) :
    (∃ y m, b = .noData y m) ∨ (∃ y m a c, b = .priceSingle y m a c) ∨
    (∃ y m mn mx a c, b = .priceRange y m mn mx a c ∧ mn < mx ∧
      mn ≤ a ∧ a ≤ mx) := by
  unfold aggregateMonthly at hb
  rcases List.mem_map.mp hb with ⟨e, _, hbe⟩
  subst hbe
  unfold renderBucket
  cases hf : e.2.filter (fun v => 0 < v) with
  | nil => exact Or.inl ⟨e.1.1, e.1.2, rfl⟩
  | cons v vs =>
    dsimp only
    by_cases hmm : vs.foldl min v = vs.foldl max v
    · rw [if_pos rfl, if_pos hmm]
      exact Or.inr (Or.inl ⟨e.1.1, e.1.2, _, _, rfl⟩)
    · rw [if_pos rfl, if_neg hmm]
      have hbound : ∀ x ∈ v :: vs, vs.foldl min v ≤ x ∧ x ≤ vs.foldl max v := by
        intro x hx
        rcases List.mem_cons.mp hx with rfl | hx'
        · exact ⟨foldl_min_le_init vs x, le_foldl_max_init vs x⟩
        · exact ⟨foldl_min_le_mem vs v x hx', le_foldl_max_mem vs v x hx'⟩
      have havg := avg_between (v :: vs) (by simp) (vs.foldl min v)
        (vs.foldl max v) (fun x hx => (hbound x hx).1) (fun x hx => (hbound x hx).2)
      have hminmax : vs.foldl min v < vs.foldl max v :=
        lt_of_le_of_ne
          (le_trans (foldl_min_le_init vs v) (le_foldl_max_init vs v)) hmm
      exact Or.inr (Or.inr ⟨e.1.1, e.1.2, _, _, _, _, rfl, hminmax, havg.1, havg.2⟩)

theorem aggregateMonthly_rank_shape (data : List Sample) (b : Bucket)
    (hb : b ∈ aggregateMonthly false data) :
    (∃ y m, b = .noData y m) ∨ (∃ y m a c, b = .rankSingle y m a c) ∨
    (∃ y m mn mx c, b = .rankRange y m mn mx c ∧ mn < mx) := by
  unfold aggregateMonthly at hb
  rcases List.mem_map.mp hb with ⟨e, _, hbe⟩
  subst hbe
  unfold renderBucket
  cases hf : e.2.filter (fun v => 0 < v) with
  | nil => exact Or.inl ⟨e.1.1, e.1.2, rfl⟩
  | cons v vs =>
    dsimp only
    by_cases hmm : vs.foldl min v = vs.foldl max v
    · rw [if_neg (by simp), if_pos hmm]
      exact Or.inr (Or.inl ⟨e.1.1, e.1.2, _, _, rfl⟩)
    · rw [if_neg (by simp), if_neg hmm]
      have hminmax : vs.foldl min v < vs.foldl max v :=
        lt_of_le_of_ne
          (le_trans (foldl_min_le_init vs v) (le_foldl_max_init vs v)) hmm
      exact Or.inr (Or.inr ⟨e.1.1, e.1.2, _, _, _, rfl, hminmax⟩)

/-- C5 counterexample: monthly aggregation of a rank-like series over a
two-value January bucket (100 and 140) renders a min–max range line carrying
no average figure at all (the `rankRange` shape), contradicting the claim
that every bucket reports minimum, maximum and average. -/
theorem aggregateMonthly_rank_avg_cex :
    aggregateMonthly false [⟨1704412800000, 100⟩, ⟨1705708800000, 140⟩] =
      [.rankRange 2024 1 100 140 2] := by decide

/-- C5 (amended): monthly aggregation groups samples by calendar month and
reports, per bucket of positive values: for price series the minimum, maximum
and half-up-rounded average (which lies between them), collapsing an all-equal
bucket to the single figure; for rank series only the minimum and maximum,
with the average only in the collapsed single-figure case; in particular the
price samples (5 Jan 2024, 100), (20 Jan 2024, 140), (2 Feb 2024, 120) yield
exactly two buckets — January with min 100, max 140, average 120, and February
collapsed to the single figure 120. -/
theorem aggregateMonthly_buckets_spec :
    aggregateMonthly true
        [⟨1704412800000, 100⟩, ⟨1705708800000, 140⟩, ⟨1706832000000, 120⟩] =
      [.priceRange 2024 1 100 140 120 2, .priceSingle 2024 2 120 1] ∧
    civilFromMs 1704412800000 = (2024, 1, 5) ∧
    civilFromMs 1705708800000 = (2024, 1, 20) ∧
    civilFromMs 1706832000000 = (2024, 2, 2) ∧
    (∀ (data : List Sample) (b : Bucket), b ∈ aggregateMonthly true data →
      (∃ y m, b = .noData y m) ∨ (∃ y m a c, b = .priceSingle y m a c) ∨
      (∃ y m mn mx a c, b = .priceRange y m mn mx a c ∧ mn < mx ∧
        mn ≤ a ∧ a ≤ mx)) ∧
    (∀ (data : List Sample) (b : Bucket), b ∈ aggregateMonthly false data →
      (∃ y m, b = .noData y m) ∨ (∃ y m a c, b = .rankSingle y m a c) ∨
      (∃ y m mn mx c, b = .rankRange y m mn mx c ∧ mn < mx)) :=
  ⟨by decide, by decide, by decide, by decide,
    aggregateMonthly_price_shape, aggregateMonthly_rank_shape⟩

/-- Witness for C5 (amended): the January range bucket of the example is in
the output and satisfies the price-bucket shape. -/
theorem aggregateMonthly_buckets_spec_witness :
    (∃ y m, Bucket.priceRange 2024 1 100 140 120 2 = Bucket.noData y m) ∨
    (∃ y m a c, Bucket.priceRange 2024 1 100 140 120 2 =
      Bucket.priceSingle y m a c) ∨
    (∃ y m mn mx a c, Bucket.priceRange 2024 1 100 140 120 2 =
      Bucket.priceRange y m mn mx a c ∧ mn < mx ∧ mn ≤ a ∧ a ≤ mx) :=
  aggregateMonthly_buckets_spec.2.2.2.2.1
    [⟨1704412800000, 100⟩, ⟨1705708800000, 140⟩, ⟨1706832000000, 120⟩]
    (Bucket.priceRange 2024 1 100 140 120 2) (by decide)

/-- C10 counterexample: with a December 9999 sample and a January 10000
sample, the lexicographic sort of the `YYYY-MM` keys puts `10000-01` before
`9999-12` (the code unit of 1 is below that of 9), so the buckets are NOT in
ascending chronological order — the claimed coincidence of lexicographic and
chronological order fails once years leave four digits. -/
theorem aggregateMonthly_order_cex :
    aggregateMonthly true [⟨253399622400000, 100⟩, ⟨253402300800000, 200⟩] =
      [.priceSingle 10000 1 200 1, .priceSingle 9999 12 100 1] ∧
    monthOf ⟨253399622400000, 100⟩ = (9999, 12) ∧
    monthOf ⟨253402300800000, 200⟩ = (10000, 1) ∧
    ¬ chronLt (10000, 1) (9999, 12) := by
  refine ⟨by decide, by decide, by decide, by decide⟩

/-- C10 (amended): for every input sample list whose samples fall in
four-digit years (1000–9999; months are 1–12), the buckets of the monthly
summary are listed in ascending chronological order of (year, month)
regardless of the order of the input samples, because the sorted stringified
entries are then ordered exactly as their keys' (year, month) pairs. -/
theorem aggregateMonthly_chronological (isPrice : Bool) (data : List Sample)
    (hok : ∀ s ∈ data, keyOk (monthOf s)) :
    ((aggregateMonthly isPrice data).map bucketMonth).Pairwise chronLt := by
  unfold aggregateMonthly
  rw [List.map_map]
  have hmap : ((stableSort entryLe (groupMonths data)).map
      (bucketMonth ∘ renderBucket isPrice)) =
      (stableSort entryLe (groupMonths data)).map Prod.fst :=
    List.map_congr_left (fun e _ => bucketMonth_renderBucket isPrice e)
  rw [hmap, List.pairwise_map]
  have hsorted := pairwise_stableSort entryLe entryLe_total entryLe_trans
    (groupMonths data)
  have hperm := stableSort_perm entryLe (groupMonths data)
  have hnodup : ((stableSort entryLe (groupMonths data)).map Prod.fst).Nodup :=
    ((hperm.map Prod.fst).symm).nodup (groupMonths_keys_nodup data)
  have hnodup' : ((stableSort entryLe (groupMonths data)).map
      Prod.fst).Pairwise (fun a b => a ≠ b) := hnodup
  have hpne := List.pairwise_map.mp hnodup'
  have hmem : ∀ e ∈ stableSort entryLe (groupMonths data), keyOk e.1 := by
    intro e he
    have he' : e ∈ groupMonths data := (hperm.mem_iff).mp he
    have hk := groupMonths_keys_sub data e he'
    rcases List.mem_map.mp hk with ⟨s, hs, hsk⟩
    rw [← hsk]
    exact hok s hs
  exact (hsorted.and hpne).imp_of_mem
    (fun {a b} ha hb hab =>
      entryLe_chronLt a b (hmem a ha) (hmem b hb) hab.2 hab.1)

/-- Witness for C10 (amended): two 2025 samples given in reverse time order
(2 Apr 2025 before 5 Mar 2025) still come out chronologically. -/
theorem aggregateMonthly_chronological_witness :
    (∀ s ∈ ([⟨1743552000000, 300⟩, ⟨1741132800000, 200⟩] : List Sample),
      keyOk (monthOf s)) ∧
    ((aggregateMonthly true
        [⟨1743552000000, 300⟩, ⟨1741132800000, 200⟩]).map
      bucketMonth).Pairwise chronLt :=
  ⟨by decide, aggregateMonthly_chronological true
    [⟨1743552000000, 300⟩, ⟨1741132800000, 200⟩] (by decide)⟩
